import Mathlib

/-!
Verification of the picohub artifact admission pipeline.

Shallow embedding of:
* `internal/middleware` rate limiter (`rateLimiter.allow`);
* `internal/service/storage_service.go` (`SaveFile`, `validatePackage`, `Delete`);
* the skill-upload orchestration in `SkillHandler.Create` after storage succeeds.

Conventions of the embedding:
* time is a natural number of abstract ticks; Go's `time.Now().After(t)` becomes
  strict comparison `t < now`;
* the upload directory is an association list from file name to file bytes;
  a freshly created file is consed at the head, `os.Remove` drops the first
  entry with the given name (directory names are unique in reality, so first
  occurrence is the only occurrence);
* external library calls that the pipeline only observes through their results
  (zip parsing, JSON decoding, the hash) are oracle parameters: a zip archive
  is the list of entries the zip reader would yield, the manifest entry's
  bytes are represented by their decode outcome, and the hash function is an
  arbitrary function of the streamed bytes.
-/

namespace Picohub

/-- Association-list lookup by key (Go map read `m[k]`). -/
def lookupKey {α : Type} : List (String × α) → String → Option α
  | [], _ => none
  | (k', v) :: t, k => if k' = k then some v else lookupKey t k

/-- Association-list write (Go map write `m[k] = v`): replace the first
binding of the key, or append a fresh binding. -/
def setKey {α : Type} : List (String × α) → String → α → List (String × α)
  | [], k, v => [(k, v)]
  | (k', v') :: t, k, v =>
    if k' = k then (k, v) :: t else (k', v') :: setKey t k v

/-- Remove the first binding of a key (`os.Remove` on a directory whose
names are unique). Removing an absent key is the identity. -/
def removeFirst {α : Type} : List (String × α) → String → List (String × α)
  | [], _ => []
  | (k', v) :: t, k => if k' = k then t else (k', v) :: removeFirst t k

/-- Whether a file with this name exists (used to decide `os.Remove` failure). -/
def hasFile {α : Type} (fs : List (String × α)) (k : String) : Bool :=
  fs.any (fun e => e.1 = k)

/-! ## Rate limiter (`internal/middleware`, `part_000`) -/

/-- Per-key window state (`visitor` struct): request count and the tick at
which the window expires. -/
structure Visitor where
  count : Nat
  resetAt : Nat
deriving DecidableEq, Repr

/-- The limiter (`rateLimiter` struct): per-key windows plus the configured
limit and window duration. The Go mutex serializes every `allow` body, so a
call is modelled as one atomic step on this state. -/
structure RateLimiter where
  visitors : List (String × Visitor)
  limit : Nat
  window : Nat
deriving DecidableEq, Repr

/-- `rateLimiter.allow` (part_000 lines 31-42): under the lock, if the key has
no window or the window's reset time has passed, install a fresh window with
count 1 and admit; otherwise increment the count and admit iff it stays within
the limit. -/
def allow (rl : RateLimiter) (key : String) (now : Nat) : Bool × RateLimiter :=
  match lookupKey rl.visitors key with
  | none =>
      (true, { rl with visitors := setKey rl.visitors key ⟨1, now + rl.window⟩ })
  | some v =>
      if v.resetAt < now then
        (true, { rl with visitors := setKey rl.visitors key ⟨1, now + rl.window⟩ })
      else
        (v.count + 1 ≤ rl.limit,
         { rl with visitors := setKey rl.visitors key ⟨v.count + 1, v.resetAt⟩ })

/-- A sequence of `allow` calls for one key at the given ticks, in order.
Because every `allow` body runs under the limiter's single exclusive lock, any
concurrent execution of these calls is equivalent to this sequential run in
the lock-acquisition order. -/
def runCalls (rl : RateLimiter) (key : String) : List Nat → List Bool × RateLimiter
  | [] => ([], rl)
  | t :: ts =>
      let step := allow rl key t
      let rest := runCalls step.2 key ts
      (step.1 :: rest.1, rest.2)

/-! ## String helpers used by `validatePackage`

Entry names are lists of characters so that the raw-byte scans of the Go code
(`strings.Contains`, `strings.Split`, `filepath.Base`) stay literal. -/

/-- `strings.Contains s sub`: does `sub` occur as a contiguous substring? -/
def hasSub (sub : List Char) : List Char → Bool
  | [] => sub.isEmpty
  | c :: t => sub.isPrefixOf (c :: t) || hasSub sub t

/-- `strings.TrimSuffix name "/"`: drop one trailing separator if present. -/
def trimSlash (p : List Char) : List Char :=
  if p.getLast? = some '/' then p.dropLast else p

/-- `strings.Split` with the one-character separator `c`: the segments between
occurrences of `c` (the empty string yields one empty segment, as in Go). -/
def goSplit (c : Char) : List Char → List (List Char)
  | [] => [[]]
  | x :: xs =>
    let r := goSplit c xs
    if x = c then [] :: r
    else
      match r with
      | [] => [[x]]
      | s :: t => (x :: s) :: t

/-- `filepath.Base` on a Unix path: strip trailing separators, then keep what
follows the last separator; empty input gives ".", all-separator input "/". -/
def goBase (p : List Char) : List Char :=
  if p.isEmpty then ['.']
  else
    let q := (p.reverse.dropWhile (fun c => c = '/')).reverse
    if q.isEmpty then ['/']
    else
      let last := (q.reverse.takeWhile (fun c => c ≠ '/')).reverse
      if last.isEmpty then ['/'] else last

/-! ## Storage service (`storage_service.go`) -/

/-- `SkillManifest`: the decoded manifest document. -/
structure SkillManifest where
  name : String
  slug : String
  version : String
  description : String
  category : String
  tags : List String
  author : String
  entryPoint : String
deriving DecidableEq, Repr

/-- What the pipeline observes of a manifest entry's bytes: opening the entry
may fail, JSON decoding may fail, or decoding yields a `SkillManifest`.
(The zip and JSON libraries are outside the repository; their outcome on the
entry is the oracle input.) -/
inductive EntryContent where
  | openFail
  | decodeFail
  | decodeOk (m : SkillManifest)
deriving DecidableEq, Repr

/-- One zip entry as the zip reader yields it: its stored name, whether its
mode has the symlink bit, and its content's decode outcome. -/
structure ZipFile where
  name : List Char
  isSymlink : Bool
  content : EntryContent
deriving DecidableEq, Repr

/-- The distinct error results of `SaveFile`/`validatePackage`/`Delete`.
`ErrFileTooLarge`, `ErrInvalidPackage`, `ErrNoManifest`, `ErrSymlinkDetected`
are the sentinel values; `openManifestFailed`, `parseManifestFailed` and
`missingNameSlug` are the `fmt.Errorf` errors of lines 120, 126 and 130,
which wrap their cause and are *not* any sentinel; `removeFailed` is the
`os.Remove` error on an absent path. -/
inductive StorageErr where
  | fileTooLarge
  | invalidPackage
  | noManifest
  | symlinkDetected
  | openManifestFailed
  | parseManifestFailed
  | missingNameSlug
  | removeFailed
deriving DecidableEq, Repr

/-- The entry-qualification test of lines 107-109: base name is exactly
`manifest.json` and the depth after trimming one trailing separator is ≤ 2. -/
def qualifiesAsManifest (name : List Char) : Bool :=
  goBase name = "manifest.json".toList &&
    (goSplit '/' (trimSlash name)).length ≤ 2

/-- The entry loop of `validatePackage` (lines 97-112): reject a symlink entry,
then reject a name containing `..`, then remember the entry as the manifest
candidate if it qualifies (a later qualifying entry overwrites an earlier
one). Returns the final candidate when no entry was rejected. -/
def scanEntries : List ZipFile → Option ZipFile → Except StorageErr (Option ZipFile)
  | [], acc => .ok acc
  | f :: rest, acc =>
    if f.isSymlink then .error .symlinkDetected
    else if hasSub ['.', '.'] f.name then .error .invalidPackage
    else scanEntries rest (if qualifiesAsManifest f.name then some f else acc)

/-- Lines 118-133: open and decode the chosen manifest entry, then require
non-empty name and slug. Open and decode failures are the wrapped
`fmt.Errorf` errors of lines 120 and 126, distinct from every sentinel. -/
def parseManifestEntry : EntryContent → Except StorageErr SkillManifest
  | .openFail => .error .openManifestFailed
  | .decodeFail => .error .parseManifestFailed
  | .decodeOk m =>
    if m.name = "" ∨ m.slug = "" then .error .missingNameSlug else .ok m

/-- `validatePackage` (lines 89-134) on the entries the zip reader yields
(`.error` when `zip.OpenReader` itself fails): scan all entries, then require
a manifest candidate and parse it. -/
def validatePackage (zipResult : Except Unit (List ZipFile)) :
    Except StorageErr SkillManifest :=
  match zipResult with
  | .error _ => .error .invalidPackage
  | .ok files =>
    match scanEntries files none with
    | .error e => .error e
    | .ok none => .error .noManifest
    | .ok (some mf) => parseManifestEntry mf.content

/-- The bytes the bounded copy of line 61-62 writes: `io.LimitReader` caps the
stream at `maxFileSize + 1` bytes, and `io.Copy` sends the same bytes to the
temp file and the hasher. -/
def copyLimited (maxFileSize : Nat) (src : List Nat) : List Nat :=
  src.take (maxFileSize + 1)

/-- `SaveFile` (lines 46-87). `hashFn` is the digest of the streamed bytes
(SHA-256 in the source; any function of the bytes for the round-trip
property); `zipOpen` is the zip reader applied to the temp file's bytes;
`tmpPath` is the fresh `os.CreateTemp` name and `finalPath` the fresh
UUID-based name. Returns the result and the upload directory afterwards:
the temp file is written, the size bound is checked, the package is
validated, and the file is renamed on success or removed on any error. -/
def saveFile (maxFileSize : Nat) (hashFn : List Nat → String)
    (zipOpen : List Nat → Except Unit (List ZipFile))
    (fs : List (String × List Nat)) (tmpPath finalPath : String)
    (src : List Nat) :
    Except StorageErr (String × String × SkillManifest) × List (String × List Nat) :=
  let data := copyLimited maxFileSize src
  let fs1 := (tmpPath, data) :: fs
  if maxFileSize < data.length then
    (.error .fileTooLarge, removeFirst fs1 tmpPath)
  else
    let hash := hashFn data
    match validatePackage (zipOpen data) with
    | .error e => (.error e, removeFirst fs1 tmpPath)
    | .ok m => (.ok (finalPath, hash, m), (finalPath, data) :: removeFirst fs1 tmpPath)

/-- `StorageService.Delete` (lines 140-145): the empty path is a no-op
returning no error; otherwise the result of `os.Remove`, which fails when no
file exists at the path. -/
def Delete {α : Type} (fs : List (String × α)) (filePath : String) :
    Except StorageErr (List (String × α)) :=
  if filePath = "" then .ok fs
  else if hasFile fs filePath then .ok (removeFirst fs filePath)
  else .error .removeFailed

/-- The state effect of a `Delete` call whose error the caller discards
(`h.storage.Delete(filePath)` in the handler ignores the returned error). -/
def deleteIgnoring {α : Type} (fs : List (String × α)) (filePath : String) :
    List (String × α) :=
  match Delete fs filePath with
  | .ok fs' => fs'
  | .error _ => fs

/-! ## Ingestion orchestrator (`SkillHandler.Create`, part_002 lines 95-160) -/

/-- What `h.scanner.Scan(filePath)` returns: a result with a clean flag and a
message, or an error. -/
inductive ScanOut where
  | result (clean : Bool) (msg : String)
  | scanFailed
deriving DecidableEq, Repr

/-- The response the handler writes after storage succeeded. -/
inductive CreateResp where
  | flaggedResp
  | conflictResp
  | createdResp
deriving DecidableEq, Repr

/-- The `model.Skill` row the handler builds (lines 140-151). -/
structure Skill where
  slug : String
  name : String
  description : String
  version : String
  category : String
  authorID : Nat
  filePath : String
  fileHash : String
  scanStatus : String
  tags : List String
deriving DecidableEq, Repr

/-- The record of lines 140-151: all fields from the manifest, the caller's
user id, the stored path and digest, and scan status "clean" (the only value
that reaches this point). -/
def mkSkill (m : SkillManifest) (userID : Nat) (filePath fileHash : String) : Skill :=
  { slug := m.slug, name := m.name, description := m.description,
    version := m.version, category := m.category, authorID := userID,
    filePath := filePath, fileHash := fileHash, scanStatus := "clean",
    tags := m.tags }

/-- The tail of `SkillHandler.Create` after `SaveFile` returned
`(filePath, fileHash, manifest)` (lines 128-159): run the scanner; on a scan
error or a non-clean result, delete the artifact and answer flagged; otherwise
ask the repository to create the record (`repoOk` is whether
`skillRepo.Create` succeeds), deleting the artifact and answering conflict on
failure. Returns the upload directory afterwards, the created record if any,
and the response. -/
def createAfterStore (scan : ScanOut) (repoOk : Bool)
    (fs : List (String × List Nat)) (filePath fileHash : String)
    (m : SkillManifest) (userID : Nat) :
    List (String × List Nat) × Option Skill × CreateResp :=
  let flagged :=
    match scan with
    | .scanFailed => true
    | .result clean _ => !clean
  if flagged then (deleteIgnoring fs filePath, none, .flaggedResp)
  else if repoOk then (fs, some (mkSkill m userID filePath fileHash), .createdResp)
  else (deleteIgnoring fs filePath, none, .conflictResp)

/-! ## Helper lemmas -/

theorem lookupKey_setKey_self {α : Type} (vis : List (String × α)) (k : String) (v : α) :
    lookupKey (setKey vis k v) k = some v := by
  induction vis with
  | nil => simp [setKey, lookupKey]
  | cons hd t ih =>
    obtain ⟨k', v'⟩ := hd
    by_cases h : k' = k
    · simp [setKey, lookupKey, h]
    · simp [setKey, lookupKey, h, ih]

/-- A steady window: while every call's tick stays at or before the window's
reset tick, each call increments the count, admits iff the new count is within
the limit, and leaves the reset tick alone. -/
theorem runCalls_steady (lim w : Nat) (key : String) (r : Nat) (ts : List Nat)
    (c : Nat) (vis : List (String × Visitor))
    (hvis : lookupKey vis key = some ⟨c, r⟩) (hts : ∀ t ∈ ts, t ≤ r) :
    (runCalls ⟨vis, lim, w⟩ key ts).1 =
      (List.range ts.length).map (fun i => decide (c + i + 1 ≤ lim)) ∧
    (runCalls ⟨vis, lim, w⟩ key ts).2.limit = lim ∧
    (runCalls ⟨vis, lim, w⟩ key ts).2.window = w ∧
    lookupKey (runCalls ⟨vis, lim, w⟩ key ts).2.visitors key =
      some ⟨c + ts.length, r⟩ := by
  induction ts generalizing vis c with
  | nil => simp [runCalls, hvis]
  | cons t ts ih =>
    have hlt : ¬ r < t := Nat.not_lt.mpr (hts t (List.mem_cons_self t ts))
    have hstep : allow ⟨vis, lim, w⟩ key t =
        (decide (c + 1 ≤ lim), ⟨setKey vis key ⟨c + 1, r⟩, lim, w⟩) := by
      simp [allow, hvis, hlt]
    have ih' := ih (c + 1) (setKey vis key ⟨c + 1, r⟩)
      (lookupKey_setKey_self ..) (fun t' ht' => hts t' (List.mem_cons_of_mem _ ht'))
    refine ⟨?_, ?_, ?_, ?_⟩
    · show (allow ⟨vis, lim, w⟩ key t).1 ::
        (runCalls (allow ⟨vis, lim, w⟩ key t).2 key ts).1 = _
      rw [hstep]
      simp only [List.length_cons, List.range_succ_eq_map, List.map_cons, List.map_map]
      rw [ih'.1]
      congr 1
      apply List.map_congr_left
      intro i _
      simp only [Function.comp_apply]
      rw [decide_eq_decide]
      omega
    · show (runCalls (allow ⟨vis, lim, w⟩ key t).2 key ts).2.limit = lim
      rw [hstep]; exact ih'.2.1
    · show (runCalls (allow ⟨vis, lim, w⟩ key t).2 key ts).2.window = w
      rw [hstep]; exact ih'.2.2.1
    · show lookupKey (runCalls (allow ⟨vis, lim, w⟩ key t).2 key ts).2.visitors key = _
      rw [hstep]
      rw [ih'.2.2.2]
      simp only [List.length_cons]
      congr 2
      omega

/-- A fresh key: the first call installs a count-1 window expiring at
`t₀ + w` and is admitted; later calls at or before that tick increment. -/
theorem runCalls_fresh (lim w : Nat) (key : String) (vis : List (String × Visitor))
    (t₀ : Nat) (rest : List Nat)
    (hfresh : lookupKey vis key = none) (hrest : ∀ t ∈ rest, t ≤ t₀ + w) :
    (runCalls ⟨vis, lim, w⟩ key (t₀ :: rest)).1 =
      true :: (List.range rest.length).map (fun i => decide (i + 2 ≤ lim)) ∧
    (runCalls ⟨vis, lim, w⟩ key (t₀ :: rest)).2.limit = lim ∧
    (runCalls ⟨vis, lim, w⟩ key (t₀ :: rest)).2.window = w ∧
    lookupKey (runCalls ⟨vis, lim, w⟩ key (t₀ :: rest)).2.visitors key =
      some ⟨1 + rest.length, t₀ + w⟩ := by
  have hstep : allow ⟨vis, lim, w⟩ key t₀ =
      (true, ⟨setKey vis key ⟨1, t₀ + w⟩, lim, w⟩) := by
    simp [allow, hfresh]
  have hsteady := runCalls_steady lim w key (t₀ + w) rest 1
    (setKey vis key ⟨1, t₀ + w⟩) (lookupKey_setKey_self ..) hrest
  refine ⟨?_, ?_, ?_, ?_⟩
  · show (allow ⟨vis, lim, w⟩ key t₀).1 ::
      (runCalls (allow ⟨vis, lim, w⟩ key t₀).2 key rest).1 = _
    rw [hstep]
    rw [hsteady.1]
    congr 1
    apply List.map_congr_left
    intro i _
    rw [decide_eq_decide]
    omega
  · show (runCalls (allow ⟨vis, lim, w⟩ key t₀).2 key rest).2.limit = lim
    rw [hstep]; exact hsteady.2.1
  · show (runCalls (allow ⟨vis, lim, w⟩ key t₀).2 key rest).2.window = w
    rw [hstep]; exact hsteady.2.2.1
  · show lookupKey (runCalls (allow ⟨vis, lim, w⟩ key t₀).2 key rest).2.visitors key = _
    rw [hstep]; exact hsteady.2.2.2

theorem countTrueRange (m k : Nat) :
    ((List.range m).map (fun i => decide (i < k))).count true = min m k := by
  induction m with
  | zero => simp
  | succ m ih =>
    rw [List.range_succ, List.map_append, List.count_append, ih]
    by_cases h : m < k
    · simp [h]; omega
    · simp [h]; omega

theorem countFalseRange (m k : Nat) :
    ((List.range m).map (fun i => decide (i < k))).count false = m - min m k := by
  induction m with
  | zero => simp
  | succ m ih =>
    rw [List.range_succ, List.map_append, List.count_append, ih]
    by_cases h : m < k
    · simp [h]; omega
    · simp [h]; omega

/-! ## Rate limiter properties -/

/-- C1. `allow`: a key with no window, or whose window's reset tick has
passed, gets a fresh window with count 1 and is admitted whatever the limit;
otherwise the count is incremented and the call is admitted iff the new count
is within the limit. Hence with limit `N ≥ 1` and a fresh key, of `N + 1`
calls within one window the first `N` are admitted and the last is denied,
and the first call after the window has passed is admitted with the count
back at 1. -/
theorem allow_window_semantics :
    (∀ (rl : RateLimiter) (key : String) (now : Nat),
       lookupKey rl.visitors key = none →
       allow rl key now =
         (true, { rl with visitors := setKey rl.visitors key ⟨1, now + rl.window⟩ })) ∧
    (∀ (rl : RateLimiter) (key : String) (now : Nat) (v : Visitor),
       lookupKey rl.visitors key = some v → v.resetAt < now →
       allow rl key now =
         (true, { rl with visitors := setKey rl.visitors key ⟨1, now + rl.window⟩ })) ∧
    (∀ (rl : RateLimiter) (key : String) (now : Nat) (v : Visitor),
       lookupKey rl.visitors key = some v → ¬ v.resetAt < now →
       allow rl key now =
         (decide (v.count + 1 ≤ rl.limit),
          { rl with visitors := setKey rl.visitors key ⟨v.count + 1, v.resetAt⟩ })) ∧
    (∀ (N w t₀ : Nat) (key : String) (vis : List (String × Visitor)) (rest : List Nat),
       1 ≤ N → lookupKey vis key = none → rest.length = N →
       (∀ t ∈ rest, t ≤ t₀ + w) →
       (runCalls ⟨vis, N, w⟩ key (t₀ :: rest)).1 =
         (List.range (N + 1)).map (fun i => decide (i + 1 ≤ N)) ∧
       (∀ t', t₀ + w < t' →
         (allow (runCalls ⟨vis, N, w⟩ key (t₀ :: rest)).2 key t').1 = true ∧
         lookupKey (allow (runCalls ⟨vis, N, w⟩ key (t₀ :: rest)).2 key t').2.visitors
             key = some ⟨1, t' + w⟩)) := by
  refine ⟨?_, ?_, ?_, ?_⟩
  · intro rl key now h
    simp [allow, h]
  · intro rl key now v h hlt
    simp [allow, h, hlt]
  · intro rl key now v h hlt
    simp [allow, h, hlt]
  · intro N w t₀ key vis rest hN hfresh hlen hrest
    have hf := runCalls_fresh N w key vis t₀ rest hfresh hrest
    constructor
    · rw [hf.1, List.range_succ_eq_map, List.map_cons, List.map_map]
      subst hlen
      congr 1
      exact (decide_eq_true hN).symm
    · intro t' ht'
      have hst : allow (runCalls ⟨vis, N, w⟩ key (t₀ :: rest)).2 key t' =
          (true,
           { (runCalls ⟨vis, N, w⟩ key (t₀ :: rest)).2 with
              visitors := setKey (runCalls ⟨vis, N, w⟩ key (t₀ :: rest)).2.visitors
                key ⟨1, t' + (runCalls ⟨vis, N, w⟩ key (t₀ :: rest)).2.window⟩ }) := by
        simp [allow, hf.2.2.2, ht']
      rw [hst]
      exact ⟨rfl, by rw [hf.2.2.1]; exact lookupKey_setKey_self ..⟩

/-- Concrete check of `allow_window_semantics` with limit 2, window 10,
calls at ticks 0, 1, 2 and a final call at tick 11. -/
theorem allow_window_semantics_check :
    allow ⟨[], 2, 10⟩ "k" 5 = (true, ⟨[("k", ⟨1, 15⟩)], 2, 10⟩) ∧
    allow ⟨[("k", ⟨7, 4⟩)], 2, 10⟩ "k" 5 = (true, ⟨[("k", ⟨1, 15⟩)], 2, 10⟩) ∧
    allow ⟨[("k", ⟨1, 15⟩)], 2, 10⟩ "k" 10 =
      (decide (1 + 1 ≤ 2), ⟨setKey [("k", ⟨1, 15⟩)] "k" ⟨2, 15⟩, 2, 10⟩) ∧
    (runCalls ⟨[], 2, 10⟩ "k" [0, 1, 2]).1 =
      (List.range 3).map (fun i => decide (i + 1 ≤ 2)) ∧
    (allow (runCalls ⟨[], 2, 10⟩ "k" [0, 1, 2]).2 "k" 11).1 = true ∧
    lookupKey (allow (runCalls ⟨[], 2, 10⟩ "k" [0, 1, 2]).2 "k" 11).2.visitors "k" =
      some ⟨1, 21⟩ := by
  have h4 := allow_window_semantics.2.2.2 2 10 0 "k" [] [1, 2]
    (by decide) rfl rfl (by decide)
  exact ⟨allow_window_semantics.1 ⟨[], 2, 10⟩ "k" 5 rfl,
    allow_window_semantics.2.1 ⟨[("k", ⟨7, 4⟩)], 2, 10⟩ "k" 5 ⟨7, 4⟩ rfl (by decide),
    allow_window_semantics.2.2.1 ⟨[("k", ⟨1, 15⟩)], 2, 10⟩ "k" 10 ⟨1, 15⟩ rfl (by decide),
    h4.1, (h4.2 11 (by decide)).1, (h4.2 11 (by decide)).2⟩

/-- C9. Every `allow` body runs under the limiter's single exclusive lock, so
a batch of concurrent calls for one key is equivalent to the sequential run
in lock order: `2 N` calls on a fresh key, all within the first call's
window, are exactly `N` admissions and `N` denials. -/
theorem allow_serialized_half_admitted (N w : Nat) (key : String)
    (vis : List (String × Visitor)) (ts : List Nat)
    (hfresh : lookupKey vis key = none)
    (hlen : ts.length = 2 * N)
    (hwin : ∀ t ∈ ts, t ≤ ts.headD 0 + w) :
    (runCalls ⟨vis, N, w⟩ key ts).1.count true = N ∧
    (runCalls ⟨vis, N, w⟩ key ts).1.count false = N := by
  cases ts with
  | nil =>
    have hN : N = 0 := by simp at hlen; omega
    subst hN
    simp [runCalls]
  | cons t₀ rest =>
    have hrest : ∀ t ∈ rest, t ≤ t₀ + w := by
      intro t ht
      simpa using hwin t (List.mem_cons_of_mem _ ht)
    have hf := runCalls_fresh N w key vis t₀ rest hfresh hrest
    have hlen' : rest.length = 2 * N - 1 := by simp at hlen; omega
    have hN : 1 ≤ N := by simp at hlen; omega
    have hmap : (fun i => decide (i + 2 ≤ N)) = (fun i => decide (i < N - 1)) := by
      funext i
      rw [decide_eq_decide]
      omega
    rw [hf.1, hmap, hlen']
    constructor
    · rw [List.count_cons, countTrueRange]
      simp
      omega
    · rw [List.count_cons, countFalseRange]
      simp
      omega

/-- Concrete check of `allow_serialized_half_admitted`: limit 2, four calls
at tick 0. -/
theorem allow_serialized_half_admitted_check :
    (runCalls ⟨[], 2, 10⟩ "k" [0, 0, 0, 0]).1.count true = 2 ∧
    (runCalls ⟨[], 2, 10⟩ "k" [0, 0, 0, 0]).1.count false = 2 :=
  allow_serialized_half_admitted 2 10 "k" [] [0, 0, 0, 0] rfl rfl (by decide)

/-! ## Storage manager properties -/

/-- C2. An input at least one byte over the limit: `SaveFile` fails with the
`FileTooLarge` sentinel, the upload directory is exactly as before the call
(the temp file is removed before returning), and the bounded copy reads
exactly `maxFileSize + 1` bytes — never more, on any input. -/
theorem saveFile_too_large (maxFileSize : Nat) (hashFn : List Nat → String)
    (zipOpen : List Nat → Except Unit (List ZipFile))
    (fs : List (String × List Nat)) (tmpPath finalPath : String) (src : List Nat)
    (hbig : maxFileSize + 1 ≤ src.length) :
    saveFile maxFileSize hashFn zipOpen fs tmpPath finalPath src =
      (.error .fileTooLarge, fs) ∧
    (copyLimited maxFileSize src).length = maxFileSize + 1 ∧
    ∀ src' : List Nat, (copyLimited maxFileSize src').length ≤ maxFileSize + 1 := by
  have hlen : (copyLimited maxFileSize src).length = maxFileSize + 1 := by
    simp [copyLimited]
    omega
  refine ⟨?_, hlen, fun src' => by simp [copyLimited]⟩
  simp [saveFile, hlen, removeFirst]

/-- Concrete check of `saveFile_too_large`: limit 2, four input bytes. -/
theorem saveFile_too_large_check :
    saveFile 2 (fun _ => "h") (fun _ => .error ()) [] "tmp" "fin" [9, 9, 9, 9] =
      (.error .fileTooLarge, []) ∧
    (copyLimited 2 [9, 9, 9, 9]).length = 2 + 1 ∧
    (copyLimited 2 [9, 9]).length ≤ 2 + 1 := by
  have h := saveFile_too_large 2 (fun _ => "h") (fun _ => .error ()) [] "tmp" "fin"
    [9, 9, 9, 9] (by decide)
  exact ⟨h.1, h.2.1, h.2.2 [9, 9]⟩

theorem scanEntries_dots (files : List ZipFile) (acc : Option ZipFile)
    (hnosym : ∀ f ∈ files, f.isSymlink = false)
    (hdots : ∃ f ∈ files, hasSub ['.', '.'] f.name = true) :
    scanEntries files acc = .error .invalidPackage := by
  induction files generalizing acc with
  | nil => simp at hdots
  | cons f rest ih =>
    have hsym := hnosym f (List.mem_cons_self ..)
    cases hd : hasSub ['.', '.'] f.name with
    | true => simp [scanEntries, hsym, hd]
    | false =>
      have hrest : ∃ g ∈ rest, hasSub ['.', '.'] g.name = true := by
        obtain ⟨g, hg, hgd⟩ := hdots
        rcases List.mem_cons.mp hg with h | h
        · subst h; rw [hd] at hgd; exact absurd hgd (by simp)
        · exact ⟨g, h, hgd⟩
      simp only [scanEntries, hsym, hd, Bool.false_eq_true, if_false]
      exact ih _ (fun g hg => hnosym g (List.mem_cons_of_mem _ hg)) hrest

/-- C10. The traversal check is a raw two-character substring scan of the
stored entry name: in an archive with no symlink entry, any entry whose name
contains `..` anywhere — a parent-directory segment or not — makes
validation return the `InvalidPackage` sentinel. -/
theorem validatePackage_dotdot_scan (files : List ZipFile)
    (hnosym : ∀ f ∈ files, f.isSymlink = false)
    (hdots : ∃ f ∈ files, hasSub ['.', '.'] f.name = true) :
    validatePackage (.ok files) = .error .invalidPackage := by
  simp [validatePackage, scanEntries_dots files none hnosym hdots]

/-- Concrete check of `validatePackage_dotdot_scan`: `notes..txt` has no
parent-directory segment, yet the archive is rejected. -/
theorem validatePackage_dotdot_scan_check :
    validatePackage (.ok [⟨"notes..txt".toList, false, .openFail⟩]) =
      .error .invalidPackage :=
  validatePackage_dotdot_scan _ (by decide) (by decide)

theorem scanEntries_symlink (pre post : List ZipFile) (e : ZipFile) (acc : Option ZipFile)
    (hsym : e.isSymlink = true)
    (hpre : ∀ f ∈ pre, f.isSymlink = false ∧ hasSub ['.', '.'] f.name = false) :
    scanEntries (pre ++ e :: post) acc = .error .symlinkDetected := by
  induction pre generalizing acc with
  | nil => simp [scanEntries, hsym]
  | cons f rest ih =>
    have hf := hpre f (List.mem_cons_self ..)
    simp only [List.cons_append, scanEntries, hf.1, hf.2, Bool.false_eq_true, if_false]
    exact ih _ (fun g hg => hpre g (List.mem_cons_of_mem _ hg))

/-- C4 as stated fails on entry order: in an archive whose first entry's name
contains `..` and whose second entry is a symbolic link, validation returns
`InvalidPackage`, not `SymlinkDetected`. -/
theorem validatePackage_symlink_counterexample :
    (⟨"evil".toList, true, .openFail⟩ : ZipFile).isSymlink = true ∧
    validatePackage (.ok [⟨"a..b".toList, false, .openFail⟩,
      ⟨"evil".toList, true, .openFail⟩]) = .error .invalidPackage ∧
    StorageErr.invalidPackage ≠ StorageErr.symlinkDetected :=
  ⟨rfl, rfl, by decide⟩

/-- C4 amended: if some entry is a symbolic link and no entry before it in
scan order has a name containing `..`, validation returns `SymlinkDetected`
regardless of manifest presence and of the later entries, and a `SaveFile`
call on such an archive leaves the upload directory exactly as it was — no
permanent artifact is created and no entry content is written to disk. -/
theorem validatePackage_symlink (maxFileSize : Nat) (hashFn : List Nat → String)
    (zipOpen : List Nat → Except Unit (List ZipFile))
    (fs : List (String × List Nat)) (tmpPath finalPath : String) (src : List Nat)
    (pre post : List ZipFile) (e : ZipFile)
    (hsz : src.length ≤ maxFileSize)
    (hzip : zipOpen (copyLimited maxFileSize src) = .ok (pre ++ e :: post))
    (hsym : e.isSymlink = true)
    (hpre : ∀ f ∈ pre, f.isSymlink = false ∧ hasSub ['.', '.'] f.name = false) :
    validatePackage (.ok (pre ++ e :: post)) = .error .symlinkDetected ∧
    saveFile maxFileSize hashFn zipOpen fs tmpPath finalPath src =
      (.error .symlinkDetected, fs) := by
  have hval : validatePackage (.ok (pre ++ e :: post)) = .error .symlinkDetected := by
    simp [validatePackage, scanEntries_symlink pre post e none hsym hpre]
  refine ⟨hval, ?_⟩
  have hlen : ¬ maxFileSize < (copyLimited maxFileSize src).length := by
    simp [copyLimited]
    omega
  simp [saveFile, hlen, hzip, hval, removeFirst]

/-- Concrete check of `validatePackage_symlink`: the manifest is present as
the first entry and the second entry is a symlink. -/
theorem validatePackage_symlink_check :
    validatePackage (.ok [⟨"manifest.json".toList, false,
        .decodeOk ⟨"A", "a", "1.0.0", "", "", [], "", ""⟩⟩,
      ⟨"lib/evil".toList, true, .openFail⟩]) = .error .symlinkDetected ∧
    saveFile 10 (fun _ => "h")
      (fun _ => .ok [⟨"manifest.json".toList, false,
          .decodeOk ⟨"A", "a", "1.0.0", "", "", [], "", ""⟩⟩,
        ⟨"lib/evil".toList, true, .openFail⟩])
      [("old.zip", [7])] "tmp" "fin" [1, 2, 3] =
      (.error .symlinkDetected, [("old.zip", [7])]) :=
  validatePackage_symlink 10 (fun _ => "h") _ [("old.zip", [7])] "tmp" "fin" [1, 2, 3]
    [⟨"manifest.json".toList, false, .decodeOk ⟨"A", "a", "1.0.0", "", "", [], "", ""⟩⟩]
    [] ⟨"lib/evil".toList, true, .openFail⟩ (by decide) rfl rfl (by decide)

/-- On an archive with no symlink and no `..` entry, the scan keeps the last
qualifying entry: the first qualifying entry of the reversed list, or the
accumulator if none qualifies. -/
theorem scanEntries_clean (files : List ZipFile) (acc : Option ZipFile)
    (hok : ∀ f ∈ files, f.isSymlink = false ∧ hasSub ['.', '.'] f.name = false) :
    scanEntries files acc =
      .ok ((files.reverse.find? (fun f => qualifiesAsManifest f.name)).or acc) := by
  induction files generalizing acc with
  | nil => simp [scanEntries]
  | cons f rest ih =>
    have hf := hok f (List.mem_cons_self ..)
    simp only [scanEntries, hf.1, hf.2, Bool.false_eq_true, if_false]
    rw [ih _ (fun g hg => hok g (List.mem_cons_of_mem _ hg))]
    rw [List.reverse_cons, List.find?_append, Option.or_assoc]
    cases hq : qualifiesAsManifest f.name <;>
      simp [List.find?, hq]

/-- C8. Manifest discovery: an entry qualifies iff its `filepath.Base` name is
exactly `manifest.json` and its depth after trimming one trailing `/` is at
most 2; when entries qualify, the parsed manifest entry is the last
qualifying one in scan order; when none qualifies (and no symlink or
traversal rejection occurred), validation returns `NoManifest`. -/
theorem validatePackage_manifest_discovery (files : List ZipFile)
    (hok : ∀ f ∈ files, f.isSymlink = false ∧ hasSub ['.', '.'] f.name = false) :
    (∀ name, qualifiesAsManifest name =
       (goBase name = "manifest.json".toList &&
        (goSplit '/' (trimSlash name)).length ≤ 2)) ∧
    (files.reverse.find? (fun f => qualifiesAsManifest f.name) = none →
       validatePackage (.ok files) = .error .noManifest) ∧
    (∀ e, files.reverse.find? (fun f => qualifiesAsManifest f.name) = some e →
       validatePackage (.ok files) = parseManifestEntry e.content) := by
  refine ⟨fun _ => rfl, ?_, ?_⟩
  · intro hnone
    simp [validatePackage, scanEntries_clean files none hok, hnone]
  · intro e he
    simp [validatePackage, scanEntries_clean files none hok, he]

/-- Concrete check of `validatePackage_manifest_discovery`: two qualifying
manifest entries, the later (one directory deep) wins; and a manifest-free
archive is `NoManifest`. -/
theorem validatePackage_manifest_discovery_check :
    validatePackage (.ok [⟨"manifest.json".toList, false,
        .decodeOk ⟨"A", "a", "1", "", "", [], "", ""⟩⟩,
      ⟨"sub/manifest.json".toList, false,
        .decodeOk ⟨"B", "b", "2", "", "", [], "", ""⟩⟩]) =
      .ok ⟨"B", "b", "2", "", "", [], "", ""⟩ ∧
    validatePackage (.ok [⟨"README.md".toList, false, .openFail⟩]) =
      .error .noManifest := by
  have h1 := (validatePackage_manifest_discovery
    [⟨"manifest.json".toList, false, .decodeOk ⟨"A", "a", "1", "", "", [], "", ""⟩⟩,
     ⟨"sub/manifest.json".toList, false, .decodeOk ⟨"B", "b", "2", "", "", [], "", ""⟩⟩]
    (by decide)).2.2
    ⟨"sub/manifest.json".toList, false, .decodeOk ⟨"B", "b", "2", "", "", [], "", ""⟩⟩
    (by decide)
  have h2 := (validatePackage_manifest_discovery
    [⟨"README.md".toList, false, .openFail⟩] (by decide)).2.1 (by decide)
  exact ⟨h1.trans rfl, h2⟩

/-- C5 as stated fails twice: a JSON decode error of the manifest entry
yields the wrapped `parse manifest` error of line 126, which is not the
`InvalidPackage` sentinel (the handler maps it to a generic 500, not 400);
and a manifest missing the version field is accepted — only name and slug
are checked (line 129). -/
theorem validatePackage_manifest_parse_counterexample :
    validatePackage (.ok [⟨"manifest.json".toList, false, .decodeFail⟩]) =
      .error .parseManifestFailed ∧
    StorageErr.parseManifestFailed ≠ StorageErr.invalidPackage ∧
    validatePackage (.ok [⟨"manifest.json".toList, false,
      .decodeOk ⟨"A", "a", "", "", "", [], "", ""⟩⟩]) =
      .ok ⟨"A", "a", "", "", "", [], "", ""⟩ :=
  ⟨rfl, by decide, rfl⟩

/-- C5 amended: a decode error of the manifest entry's bytes yields a
distinct wrapped parse error (its underlying cause attached), not the
`InvalidPackage` sentinel; an open error likewise yields its own wrapped
error; a manifest missing display name or slug is terminally rejected with
the missing-name-and-slug error; a missing version is accepted — the archive
is never partially accepted. -/
theorem validatePackage_manifest_parse (files : List ZipFile) (mf : ZipFile)
    (hscan : scanEntries files none = .ok (some mf)) :
    (mf.content = .decodeFail →
       validatePackage (.ok files) = .error .parseManifestFailed ∧
       StorageErr.parseManifestFailed ≠ StorageErr.invalidPackage) ∧
    (mf.content = .openFail →
       validatePackage (.ok files) = .error .openManifestFailed) ∧
    (∀ m, mf.content = .decodeOk m → (m.name = "" ∨ m.slug = "") →
       validatePackage (.ok files) = .error .missingNameSlug) ∧
    (∀ m, mf.content = .decodeOk m → m.name ≠ "" → m.slug ≠ "" →
       validatePackage (.ok files) = .ok m) := by
  refine ⟨fun h => ⟨?_, by decide⟩, fun h => ?_, fun m h hmiss => ?_, fun m h hn hs => ?_⟩
  · simp [validatePackage, hscan, h, parseManifestEntry]
  · simp [validatePackage, hscan, h, parseManifestEntry]
  · simp [validatePackage, hscan, h, parseManifestEntry, hmiss]
  · simp [validatePackage, hscan, h, parseManifestEntry, hn, hs]

/-- Concrete check of `validatePackage_manifest_parse`: a decode failure, a
slugless manifest, and a versionless manifest, each as the only entry. -/
theorem validatePackage_manifest_parse_check :
    (validatePackage (.ok [⟨"manifest.json".toList, false, .decodeFail⟩]) =
       .error .parseManifestFailed ∧
     StorageErr.parseManifestFailed ≠ StorageErr.invalidPackage) ∧
    validatePackage (.ok [⟨"manifest.json".toList, false,
      .decodeOk ⟨"A", "", "1", "", "", [], "", ""⟩⟩]) =
      .error .missingNameSlug ∧
    validatePackage (.ok [⟨"manifest.json".toList, false,
      .decodeOk ⟨"A", "a", "", "", "", [], "", ""⟩⟩]) =
      .ok ⟨"A", "a", "", "", "", [], "", ""⟩ := by
  refine ⟨(validatePackage_manifest_parse
      [⟨"manifest.json".toList, false, .decodeFail⟩] _ rfl).1 rfl, ?_, ?_⟩
  · exact (validatePackage_manifest_parse
      [⟨"manifest.json".toList, false, .decodeOk ⟨"A", "", "1", "", "", [], "", ""⟩⟩]
      _ rfl).2.2.1 _ rfl (by simp)
  · exact (validatePackage_manifest_parse
      [⟨"manifest.json".toList, false, .decodeOk ⟨"A", "a", "", "", "", [], "", ""⟩⟩]
      _ rfl).2.2.2 _ rfl (by simp) (by simp)

/-- C7. Digest round-trip: when `SaveFile` succeeds, the returned path is the
final path, the bytes stored there are exactly the bytes of the single
bounded streaming pass, and the returned digest is the hash of those same
bytes — so recomputing the digest of the stored file reproduces it, for any
digest function. -/
theorem saveFile_digest_roundtrip (maxFileSize : Nat) (hashFn : List Nat → String)
    (zipOpen : List Nat → Except Unit (List ZipFile))
    (fs fs' : List (String × List Nat)) (tmpPath finalPath p h : String)
    (m : SkillManifest) (src : List Nat)
    (hok : saveFile maxFileSize hashFn zipOpen fs tmpPath finalPath src =
      (.ok (p, h, m), fs')) :
    p = finalPath ∧
    lookupKey fs' p = some (copyLimited maxFileSize src) ∧
    h = hashFn (copyLimited maxFileSize src) := by
  by_cases hbig : maxFileSize < (copyLimited maxFileSize src).length
  · simp [saveFile, hbig] at hok
  · cases hval : validatePackage (zipOpen (copyLimited maxFileSize src)) with
    | error e => simp [saveFile, hbig, hval] at hok
    | ok m' =>
      simp only [saveFile, hbig, if_false, hval] at hok
      obtain ⟨⟨hp, hh, hm⟩, hfs⟩ := by
        simpa [Prod.ext_iff] using hok
      subst hp hh hfs
      simp [lookupKey]

/-- Concrete check of `saveFile_digest_roundtrip` on a successful upload. -/
theorem saveFile_digest_roundtrip_check :
    "fin" = "fin" ∧
    lookupKey [("fin", [1, 2, 3])] "fin" = some (copyLimited 10 [1, 2, 3]) ∧
    "digest" = (fun _ : List Nat => "digest") (copyLimited 10 [1, 2, 3]) :=
  saveFile_digest_roundtrip 10 (fun _ => "digest")
    (fun _ => .ok [⟨"manifest.json".toList, false,
      .decodeOk ⟨"A", "a", "1", "", "", [], "", ""⟩⟩])
    [] [("fin", [1, 2, 3])] "tmp" "fin" "fin" "digest"
    ⟨"A", "a", "1", "", "", [], "", ""⟩ [1, 2, 3] rfl

/-! ## Deletion and orchestration properties -/

theorem hasFile_removeFirst {α : Type} (fs : List (String × α)) (p : String)
    (hcount : (fs.map Prod.fst).count p ≤ 1) :
    hasFile (removeFirst fs p) p = false := by
  induction fs with
  | nil => simp [removeFirst, hasFile]
  | cons hd t ih =>
    obtain ⟨k, v⟩ := hd
    by_cases hk : k = p
    · subst hk
      have hrm : removeFirst ((k, v) :: t) k = t := by simp [removeFirst]
      rw [hrm]
      have hz : (t.map Prod.fst).count k = 0 := by
        simp [List.count_cons] at hcount
        omega
      have hnm : k ∉ t.map Prod.fst := List.count_eq_zero.mp hz
      cases hany : hasFile t k with
      | false => rfl
      | true =>
        exfalso
        have hex : ∃ e ∈ t, e.1 = k := by
          simpa [hasFile, List.any_eq_true] using hany
        obtain ⟨e, he, heq⟩ := hex
        exact hnm (heq ▸ List.mem_map_of_mem Prod.fst he)
    · simp only [removeFirst, if_neg hk, hasFile, List.any_cons]
      have : (t.map Prod.fst).count p ≤ 1 := by
        simp [List.count_cons, hk] at hcount ⊢
        omega
      simp only [hasFile] at ih
      simp [hk, ih this]

/-- C3. The orchestrator after storage: a scanner error is handled exactly
like a `clean = false` result — the artifact is deleted and a flagged
rejection is reported with no record created; a persistence failure likewise
deletes the artifact and creates no record; and in every such rejection the
stored path is gone from the upload directory afterwards. -/
theorem createAfterStore_fail_closed (fs : List (String × List Nat))
    (filePath fileHash : String) (m : SkillManifest) (userID : Nat)
    (msg : String) (repoOk : Bool)
    (hne : filePath ≠ "")
    (hcount : (fs.map Prod.fst).count filePath ≤ 1) :
    createAfterStore .scanFailed repoOk fs filePath fileHash m userID =
      createAfterStore (.result false msg) repoOk fs filePath fileHash m userID ∧
    createAfterStore .scanFailed repoOk fs filePath fileHash m userID =
      (deleteIgnoring fs filePath, none, .flaggedResp) ∧
    createAfterStore (.result true msg) false fs filePath fileHash m userID =
      (deleteIgnoring fs filePath, none, .conflictResp) ∧
    hasFile (deleteIgnoring fs filePath) filePath = false := by
  refine ⟨by simp [createAfterStore], by simp [createAfterStore],
    by simp [createAfterStore], ?_⟩
  unfold deleteIgnoring Delete
  simp only [if_neg hne]
  cases hhf : hasFile fs filePath with
  | true => simp [hhf, hasFile_removeFirst fs filePath hcount]
  | false => simp [hhf]

/-- Concrete check of `createAfterStore_fail_closed`: one stored artifact,
scanner error vs flagged result vs repository conflict. -/
theorem createAfterStore_fail_closed_check :
    createAfterStore .scanFailed true [("f.zip", [1])] "f.zip" "d"
        ⟨"A", "a", "1", "", "", [], "", ""⟩ 7 =
      createAfterStore (.result false "bad") true [("f.zip", [1])] "f.zip" "d"
        ⟨"A", "a", "1", "", "", [], "", ""⟩ 7 ∧
    createAfterStore .scanFailed true [("f.zip", [1])] "f.zip" "d"
        ⟨"A", "a", "1", "", "", [], "", ""⟩ 7 =
      (deleteIgnoring [("f.zip", [1])] "f.zip", none, .flaggedResp) ∧
    createAfterStore (.result true "bad") false [("f.zip", [1])] "f.zip" "d"
        ⟨"A", "a", "1", "", "", [], "", ""⟩ 7 =
      (deleteIgnoring [("f.zip", [1])] "f.zip", none, .conflictResp) ∧
    hasFile (deleteIgnoring [("f.zip", [1])] "f.zip") "f.zip" = false :=
  createAfterStore_fail_closed [("f.zip", [1])] "f.zip" "d"
    ⟨"A", "a", "1", "", "", [], "", ""⟩ 7 "bad" true (by decide) (by decide)

/-- C6 as stated fails: the artifact-delete operation forwards the
`os.Remove` error, so deleting a non-existent path errors, and the second of
two deletes of the same (present-once) path errors. Only the empty path is a
guaranteed no-op. -/
theorem delete_idempotent_counterexample :
    Delete [("a", ([0] : List Nat))] "a" = .ok [] ∧
    Delete ([] : List (String × List Nat)) "a" = .error .removeFailed :=
  ⟨rfl, rfl⟩

/-- C6 amended: `Delete` on the empty path never errors and changes nothing;
on a path that exists it removes the file and returns no error; on a
non-empty path with no file it returns the `os.Remove` error — so a second
delete of the same path is not a no-op but an error. -/
theorem delete_contract {α : Type} (fs : List (String × α)) (p : String) :
    Delete fs "" = .ok fs ∧
    (p ≠ "" → hasFile fs p = true → Delete fs p = .ok (removeFirst fs p)) ∧
    (p ≠ "" → hasFile fs p = false → Delete fs p = .error .removeFailed) := by
  refine ⟨by simp [Delete], fun h1 h2 => ?_, fun h1 h2 => ?_⟩
  · simp [Delete, h1, h2]
  · simp [Delete, h1, h2]

/-- Concrete check of `delete_contract`. -/
theorem delete_contract_check :
    Delete [("a", ([0] : List Nat))] "" = .ok [("a", [0])] ∧
    Delete [("a", ([0] : List Nat))] "a" = .ok (removeFirst [("a", [0])] "a") ∧
    Delete ([] : List (String × List Nat)) "a" = .error .removeFailed :=
  ⟨(delete_contract [("a", [0])] "a").1,
   (delete_contract [("a", [0])] "a").2.1 (by decide) (by decide),
   (delete_contract ([] : List (String × List Nat)) "a").2.2 (by decide) (by decide)⟩

end Picohub
